import Mathlib

/-!
Verification of the Morse-code communication core of this repository
(`src/morse_logic.py`, `src/gpio_control.py`, `config/settings.py`).

The Python source is shallowly embedded: pure functions become Lean
functions on `String` / `List Char`, the stateful transmitter and
receiver become explicit state-passing functions, and the boundary
timers of `SignalReceiver` are embedded as the idealized event
semantics their sleep-then-revalidate checks implement (the analysis
is documented at `receiver_run`).  Durations are rationals.

`config/settings.py` as shipped does not define `MORSE_CODE_DICT`,
`REVERSE_MORSE_DICT` or `MORSE_TIMING`, although every module imports
them; those three values are modelled from the spec (and pinned by the
repository's own unit tests where they constrain entries).
-/

/-- A Morse token: `Dot` or `Dash` (spec §3 data model). -/
inductive MorseToken where
  | dot : MorseToken
  | dash : MorseToken
deriving DecidableEq, Repr

/-- The five named durations of the spec's TimingProfile (§3):
`dot`, `dash`, `intra_char_gap`, `inter_char_gap`, `inter_word_gap`. -/
structure TimingProfile where
  dot : ℚ
  dash : ℚ
  intra_char_gap : ℚ
  inter_char_gap : ℚ
  inter_word_gap : ℚ
deriving DecidableEq, Repr

/-- Modelled from the spec: `MORSE_TIMING` is imported from
`config.settings` by every module but is absent from the shipped
`config/settings.py`.  The spec (§3) requires all durations positive,
`dash > dot` and `inter_word_gap > inter_char_gap > intra_char_gap`,
and §8 additionally requires `classify(dot) = Dot`, i.e.
`dot < dash * 0.7`; the standard 3:1 dash:dot ratio satisfies all of
these (values in seconds). -/
def MORSE_TIMING : TimingProfile :=
  { dot := mkRat 1 5
    dash := mkRat 3 5
    intra_char_gap := mkRat 1 5
    inter_char_gap := mkRat 3 5
    inter_word_gap := mkRat 7 5 }

/-- The classification threshold ratio (`0.7`), the literal that
appears in `SignalReceiver._signal_detected`
(`duration < MORSE_TIMING['dash'] * 0.7`). -/
def threshold_factor : ℚ := mkRat 7 10

/-- Embeds the dot/dash decision of `SignalReceiver._signal_detected`
(gpio_control.py lines 208-214): a pulse duration below
`dash * 0.7` is a dot, anything else a dash. -/
def classify (t : TimingProfile) (d : ℚ) : MorseToken :=
  if d < t.dash * threshold_factor then MorseToken.dot else MorseToken.dash

/-- The character `_signal_detected` appends to
`current_char_signals` for a pulse of duration `d`. -/
def signalChar (t : TimingProfile) (d : ℚ) : Char :=
  match classify t d with
  | MorseToken.dot => '.'
  | MorseToken.dash => '-'

/-- Modelled from the spec: `MORSE_CODE_DICT` is imported from
`config.settings` but absent from the shipped `config/settings.py`.
Modelled as the international Morse table over the Latin alphabet,
digits and common punctuation (spec §1/§6), with a space mapped to the
word-separator marker `/` (required by spec §4.1 and the repository
test `test_text_to_morse_with_spaces`), and `!` mapped to `-.-.--`
(required by the repository test `test_text_to_morse_unknown_chars`,
whose expected output for `HELLO!` ends in `-.-.--`). -/
def MORSE_CODE_DICT : List (Char × String) :=
  [ ('A', ".-"), ('B', "-..."), ('C', "-.-."), ('D', "-.."), ('E', "."),
    ('F', "..-."), ('G', "--."), ('H', "...."), ('I', ".."), ('J', ".---"),
    ('K', "-.-"), ('L', ".-.."), ('M', "--"), ('N', "-."), ('O', "---"),
    ('P', ".--."), ('Q', "--.-"), ('R', ".-."), ('S', "..."), ('T', "-"),
    ('U', "..-"), ('V', "...-"), ('W', ".--"), ('X', "-..-"), ('Y', "-.--"),
    ('Z', "--.."),
    ('0', "-----"), ('1', ".----"), ('2', "..---"), ('3', "...--"),
    ('4', "....-"), ('5', "....."), ('6', "-...."), ('7', "--..."),
    ('8', "---.."), ('9', "----."),
    ('.', ".-.-.-"), (',', "--..--"), ('?', "..--.."), ('!', "-.-.--"),
    ('/', "-..-."), ('(', "-.--."), (')', "-.--.-"), ('&', ".-..."),
    (':', "---..."), (';', "-.-.-."), ('=', "-...-"), ('+', ".-.-."),
    ('-', "-....-"), ('_', "..--.-"), ('@', ".--.-."),
    (' ', "/") ]

/-- Modelled from the spec: `REVERSE_MORSE_DICT` is likewise absent
from the shipped settings; per spec §3 it is "a lookup table built
from" the forward table, so it is modelled as the entrywise swap. -/
def REVERSE_MORSE_DICT : List (String × Char) :=
  MORSE_CODE_DICT.map (fun p => (p.2, p.1))

/-- Embeds Python `morse.split(' ')`: split a character list at every
space, keeping empty segments (so `splitSpace [] = [[]]`, matching
`''.split(' ') == ['']`).  Never returns `[]`. -/
def splitSpace : List Char → List (List Char)
  | [] => [[]]
  | c :: rest =>
    if c = ' ' then [] :: splitSpace rest
    else
      match splitSpace rest with
      | [] => [[c]]
      | w :: ws => (c :: w) :: ws

/-- Embeds Python `' '.join(chunks)`. -/
def joinSpace : List (List Char) → List Char
  | [] => []
  | w :: ws =>
    match ws with
    | [] => w
    | _ :: _ => w ++ ' ' :: joinSpace ws

/-- The per-character encoding step of `MorseConverter.text_to_morse`
(morse_logic.py lines 35-40): look the (already uppercased) character
up in the code table; an unmapped character contributes the literal
chunk `?`. -/
def encodeChar (c : Char) : List Char :=
  match MORSE_CODE_DICT.lookup c with
  | some s => s.data
  | none => ['?']

/-- Embeds `MorseConverter.text_to_morse` (morse_logic.py lines
21-42): empty input gives empty output; otherwise uppercase the text,
encode each character, and join the chunks with single spaces. -/
def text_to_morse (text : String) : String :=
  if text.data = [] then ""
  else String.mk (joinSpace ((text.data.map Char.toUpper).map encodeChar))

/-- The per-chunk decoding step of `MorseConverter.morse_to_text`
(morse_logic.py lines 58-65): reverse-table lookup first, then the
word-separator marker `/` decodes to a space, and anything else
decodes to `?`. -/
def decodeChunk (chunk : List Char) : Char :=
  match REVERSE_MORSE_DICT.lookup (String.mk chunk) with
  | some c => c
  | none => if chunk = ['/'] then ' ' else '?'

/-- Embeds `MorseConverter.morse_to_text` (morse_logic.py lines
44-67): empty input gives empty output; otherwise split on spaces and
decode each chunk. -/
def morse_to_text (morse : String) : String :=
  if morse.data = [] then ""
  else String.mk ((splitSpace morse.data).map decodeChunk)

/-- Embeds `MorseConverter.get_morse_timing` (morse_logic.py lines
69-82), with the module-global `MORSE_TIMING` passed explicitly. -/
def get_morse_timing (t : TimingProfile) (morse_char : String) : ℚ :=
  if morse_char = "." then t.dot
  else if morse_char = "-" then t.dash
  else 0

example : text_to_morse "SOS" = "... --- ..." := by decide
example : morse_to_text "... --- ..." = "SOS" := by decide
example : text_to_morse "HELLO WORLD" = ".... . .-.. .-.. --- / .-- --- .-. .-.. -.." := by decide
example : text_to_morse "HELLO!" = ".... . .-.. .-.. --- -.-.--" := by decide
example : morse_to_text ".... . .-.. .-.. --- .-.-" = "HELLO?" := by decide

/-- A successful association-list lookup returns a member pair. -/
theorem lookup_mem {α β : Type} [BEq α] [LawfulBEq α] :
    ∀ {l : List (α × β)} {a : α} {b : β}, l.lookup a = some b → (a, b) ∈ l := by
  intro l
  induction l with
  | nil => intro a b h; simp [List.lookup] at h
  | cons p ps ih =>
    intro a b h
    rw [List.lookup] at h
    cases hpa : a == p.1 with
    | true =>
      rw [hpa] at h
      simp only [Option.some.injEq] at h
      have hax : p.1 = a := (eq_of_beq hpa).symm
      have hp : p = (a, b) := by rw [← hax, ← h]
      rw [← hp]
      exact List.mem_cons_self _ _
    | false =>
      rw [hpa] at h
      exact List.mem_cons_of_mem _ (ih h)

/-- Every chunk the encoder can produce is free of spaces (checked
over the finite code table; the unknown-character chunk is `?`). -/
theorem dict_vals_space_free : ∀ p ∈ MORSE_CODE_DICT, ' ' ∉ p.2.data := by decide

/-- `encodeChar` never puts a space inside a chunk. -/
theorem encodeChar_space_free (c : Char) : ' ' ∉ encodeChar c := by
  unfold encodeChar
  cases h : MORSE_CODE_DICT.lookup c with
  | none => decide
  | some s => exact dict_vals_space_free (c, s) (lookup_mem h)

/-- Splitting after a space-free chunk and a separating space peels
off exactly that chunk. -/
theorem splitSpace_append (w t : List Char) (hw : ' ' ∉ w) :
    splitSpace (w ++ ' ' :: t) = w :: splitSpace t := by
  induction w with
  | nil => simp [splitSpace]
  | cons c w ih =>
    have hc : c ≠ ' ' := fun hc => hw (hc ▸ List.mem_cons_self c w)
    have hw' : ' ' ∉ w := fun h => hw (List.mem_cons_of_mem c h)
    have hstep : splitSpace (c :: (w ++ ' ' :: t)) =
        match splitSpace (w ++ ' ' :: t) with
        | [] => [[c]]
        | x :: xs => (c :: x) :: xs := by
      simp only [splitSpace, if_neg hc]
    rw [List.cons_append, hstep, ih hw']

/-- A space-free character list splits into itself alone. -/
theorem splitSpace_no_space (w : List Char) (hw : ' ' ∉ w) :
    splitSpace w = [w] := by
  induction w with
  | nil => rfl
  | cons c w ih =>
    have hc : c ≠ ' ' := fun hc => hw (hc ▸ List.mem_cons_self c w)
    have hw' : ' ' ∉ w := fun h => hw (List.mem_cons_of_mem c h)
    simp only [splitSpace, if_neg hc, ih hw']

/-- `splitSpace` is the left inverse of `joinSpace` on non-empty
lists of space-free chunks (this is what makes Python's
`' '.join` / `split(' ')` a faithful chunk serialization). -/
theorem splitSpace_joinSpace :
    ∀ (ws : List (List Char)), ws ≠ [] → (∀ w ∈ ws, ' ' ∉ w) →
      splitSpace (joinSpace ws) = ws := by
  intro ws
  induction ws with
  | nil => intro h; exact absurd rfl h
  | cons w ws ih =>
    intro _ hsf
    cases ws with
    | nil => exact splitSpace_no_space w (hsf w (List.mem_cons_self w []))
    | cons w' ws' =>
      have hrec := ih (List.cons_ne_nil w' ws')
        (fun x hx => hsf x (List.mem_cons_of_mem w hx))
      have hjoin : joinSpace (w :: w' :: ws') = w ++ ' ' :: joinSpace (w' :: ws') := rfl
      rw [hjoin, splitSpace_append w _ (hsf w (List.mem_cons_self w _)), hrec]


/-- C2 (confirmed): the character-to-sequence mapping is injective
(the list of code-table values has no duplicate), and for every
character `c` in the domain of the code table,
`morse_to_text (text_to_morse c) = uppercase c`. -/
theorem morse_roundtrip :
    (MORSE_CODE_DICT.map Prod.snd).Nodup ∧
    ∀ p ∈ MORSE_CODE_DICT,
      morse_to_text (text_to_morse (String.mk [p.1])) = String.mk [p.1.toUpper] := by
  decide

/-- Witness for C2 at the character `S`. -/
theorem morse_roundtrip_witness :
    morse_to_text (text_to_morse (String.mk ['S'])) = String.mk ['S'.toUpper] :=
  morse_roundtrip.2 ('S', "...") (by decide)

/-- C3 counterexample: `#` has no entry in the code table, and
`text_to_morse "#"` is the single character `?`, not the claimed
placeholder token sequence `-.-.--`. -/
theorem unknown_placeholder_cex :
    MORSE_CODE_DICT.lookup '#' = none ∧
    text_to_morse "#" = "?" ∧ text_to_morse "#" ≠ "-.-.--" := by
  decide

/-- C3 (amended): conversion never fails, but an unmapped character
is encoded as the literal chunk `?` (not `-.-.--`); `text_to_morse
"HELLO!"` still ends with `-.-.--` because `!` itself is a mapped
character; and `morse_to_text` decodes any unrecognized, non-empty,
space-free chunk other than the separator `/` to `?`. -/
theorem unknown_degrades (c : Char) (m : String)
    (hc : MORSE_CODE_DICT.lookup c.toUpper = none)
    (hm : REVERSE_MORSE_DICT.lookup m = none) (hmw : m ≠ "/")
    (hmne : m.data ≠ []) (hms : ' ' ∉ m.data) :
    text_to_morse (String.mk [c]) = "?" ∧
    morse_to_text m = "?" ∧
    text_to_morse "HELLO!" = ".... . .-.. .-.. --- -.-.--" := by
  refine ⟨?_, ?_, by decide⟩
  · show (if ([c] : List Char) = [] then "" else
      String.mk (joinSpace (([c].map Char.toUpper).map encodeChar))) = "?"
    rw [if_neg (by simp)]
    simp only [List.map_cons, List.map_nil]
    show String.mk (joinSpace [encodeChar c.toUpper]) = "?"
    unfold encodeChar
    rw [hc]
    rfl
  · show (if m.data = [] then "" else
      String.mk ((splitSpace m.data).map decodeChunk)) = "?"
    rw [if_neg hmne, splitSpace_no_space m.data hms]
    have hmk : String.mk m.data = m := rfl
    have hchunk : m.data ≠ ['/'] := fun h => hmw (by rw [← hmk, h])
    simp only [List.map_cons, List.map_nil]
    unfold decodeChunk
    rw [hmk, hm, if_neg hchunk]

/-- Witness for C3's amended theorem at `#` and chunk `.-.-`. -/
theorem unknown_degrades_witness :
    text_to_morse (String.mk ['#']) = "?" ∧
    morse_to_text ".-.-" = "?" ∧
    text_to_morse "HELLO!" = ".... . .-.. .-.. --- -.-.--" :=
  unknown_degrades '#' ".-.-" (by decide) (by decide) (by decide) (by decide)
    (by decide)

/-- C4 (confirmed): classification is a pure function of the duration
and the timing profile; a duration is classified `Dot` exactly when it
is below `dash * 0.7`, and on the configured profile the dash duration
classifies as `Dash` and the dot duration as `Dot`. -/
theorem classify_threshold_spec (t : TimingProfile) (d : ℚ) :
    (classify t d = MorseToken.dot ↔ d < t.dash * threshold_factor) ∧
    classify MORSE_TIMING MORSE_TIMING.dash = MorseToken.dash ∧
    classify MORSE_TIMING MORSE_TIMING.dot = MorseToken.dot := by
  refine ⟨?_, ?_, ?_⟩
  · unfold classify
    split
    case isTrue h => simp [h]
    case isFalse h => simp [h]
  · show classify MORSE_TIMING MORSE_TIMING.dash = MorseToken.dash
    unfold classify MORSE_TIMING threshold_factor
    rw [if_neg]
    simp only [Rat.mkRat_eq_div]
    norm_num
  · show classify MORSE_TIMING MORSE_TIMING.dot = MorseToken.dot
    unfold classify MORSE_TIMING threshold_factor
    rw [if_pos]
    simp only [Rat.mkRat_eq_div]
    norm_num

/-- C8 (confirmed): a literal space is transcoded to the separator
marker `/`; the spec's `HELLO WORLD` example holds in both directions;
and in general the space-joined output of `text_to_morse` splits back
into exactly one chunk per (uppercased) input character, so each space
of the input occupies its own `/` chunk. -/
theorem space_word_separator :
    text_to_morse "HELLO WORLD" = ".... . .-.. .-.. --- / .-- --- .-. .-.. -.." ∧
    morse_to_text ".... . .-.. .-.. --- / .-- --- .-. .-.. -.." = "HELLO WORLD" ∧
    encodeChar ' ' = ['/'] ∧
    morse_to_text "/" = " " ∧
    ∀ text : String, text.data ≠ [] →
      splitSpace (text_to_morse text).data = (text.data.map Char.toUpper).map encodeChar := by
  refine ⟨by decide, by decide, by decide, by decide, fun text hne => ?_⟩
  show splitSpace (if text.data = [] then "" else
      String.mk (joinSpace ((text.data.map Char.toUpper).map encodeChar))).data
    = (text.data.map Char.toUpper).map encodeChar
  rw [if_neg hne]
  have hne' : (text.data.map Char.toUpper).map encodeChar ≠ [] := by
    simp [hne]
  exact splitSpace_joinSpace _ hne'
    (fun w hw => by
      obtain ⟨c, _, hc⟩ := List.mem_map.mp hw
      exact hc ▸ encodeChar_space_free c)

/-- Witness for C8's general conjunct at the text `HELLO WORLD`. -/
theorem space_word_separator_witness :
    splitSpace (text_to_morse "HELLO WORLD").data
      = (("HELLO WORLD" : String).data.map Char.toUpper).map encodeChar :=
  space_word_separator.2.2.2.2 "HELLO WORLD" (by decide)

/-- C10 (confirmed): `get_morse_timing` is total — it returns the
configured dot duration for `.`, the configured dash duration for
`-`, and `0.0` for every other argument, never raising. -/
theorem get_morse_timing_total (t : TimingProfile) (s : String) :
    get_morse_timing t "." = t.dot ∧
    get_morse_timing t "-" = t.dash ∧
    (s ≠ "." → s ≠ "-" → get_morse_timing t s = 0) := by
  refine ⟨rfl, rfl, fun h1 h2 => ?_⟩
  unfold get_morse_timing
  rw [if_neg h1, if_neg h2]

/-- Witness for C10 on the configured profile at the argument `x`. -/
theorem get_morse_timing_total_witness :
    get_morse_timing MORSE_TIMING "x" = 0 :=
  (get_morse_timing_total MORSE_TIMING "x").2.2 (by decide) (by decide)

/-- An observable action of the transmission worker: output-line
edges, timed waits, and the completion callback. -/
inductive TxAct where
  | setHigh : TxAct
  | setLow : TxAct
  | sleep : ℚ → TxAct
  | callback : TxAct
deriving DecidableEq, Repr

/-- The state of `MorseTransmitter` visible to `transmit_text`:
the `is_transmitting` flag and the morse string handed to the
in-flight worker (if any). -/
structure TransmitterState where
  is_transmitting : Bool
  inflight : Option String
deriving DecidableEq, Repr

/-- Embeds `MorseTransmitter.transmit_text` (morse_logic.py lines
101-121): if a transmission is in flight, return `False` and change
nothing; otherwise convert the text and start the worker on it.  (In
the Python the worker thread itself sets `is_transmitting`; the
sequential embedding folds that first worker step into the send.) -/
def transmit_text (st : TransmitterState) (text : String) : Bool × TransmitterState :=
  if st.is_transmitting then (false, st)
  else (true, { is_transmitting := true, inflight := some (text_to_morse text) })

/-- The actions `GPIOController.transmit_dot` performs
(gpio_control.py lines 100-105): line high, wait `dot`, line low,
wait `intra_char_gap`. -/
def transmit_dot (t : TimingProfile) : List TxAct :=
  [TxAct.setHigh, TxAct.sleep t.dot, TxAct.setLow, TxAct.sleep t.intra_char_gap]

/-- The actions `GPIOController.transmit_dash` performs
(gpio_control.py lines 107-112). -/
def transmit_dash (t : TimingProfile) : List TxAct :=
  [TxAct.setHigh, TxAct.sleep t.dash, TxAct.setLow, TxAct.sleep t.intra_char_gap]

/-- One iteration of the loop of
`MorseTransmitter._transmit_morse_sequence` (morse_logic.py lines
131-150) on chunk `mc` with the remaining chunks `rest`: a `/` chunk
waits `inter_word_gap`; otherwise a pulse is emitted only when the
chunk is exactly `.` or exactly `-` (any other chunk emits nothing),
and then `inter_char_gap` is waited unless this is the last chunk or
the next chunk is `/`. -/
def chunkActs (t : TimingProfile) (mc : String) (rest : List String) : List TxAct :=
  if mc = "/" then [TxAct.sleep t.inter_word_gap]
  else
    (if mc = "." then transmit_dot t
     else if mc = "-" then transmit_dash t
     else []) ++
    (match rest with
     | [] => []
     | next :: _ => if next = "/" then [] else [TxAct.sleep t.inter_char_gap])

/-- The loop of `_transmit_morse_sequence`: `stop i` is the value of
`stop_transmission.is_set()` observed at the check before iteration
`i`; a set stop flag breaks out of the loop. -/
def worker_go (t : TimingProfile) (stop : ℕ → Bool) : List String → ℕ → List TxAct
  | [], _ => []
  | mc :: rest, i =>
    if stop i then []
    else chunkActs t mc rest ++ worker_go t stop rest (i + 1)

/-- Embeds `MorseTransmitter._transmit_morse_sequence` (morse_logic.py
lines 123-160) run to completion: the morse string is split on
spaces and walked by `worker_go`; the `finally` block then fires the
completion callback and clears `is_transmitting`, on the normal and
the cancelled path alike. -/
def worker_run (t : TimingProfile) (stop : ℕ → Bool) (morse_code : String) :
    List TxAct × TransmitterState :=
  (worker_go t stop ((splitSpace morse_code.data).map String.mk) 0 ++ [TxAct.callback],
   { is_transmitting := false, inflight := none })

example : worker_run MORSE_TIMING (fun _ => false) (text_to_morse "SOS")
    = ([TxAct.sleep MORSE_TIMING.inter_char_gap,
        TxAct.sleep MORSE_TIMING.inter_char_gap, TxAct.callback],
       { is_transmitting := false, inflight := none }) := by decide

/-- C1 (code_bug): transmitting `SOS` (whose converted Morse string is
`... --- ...`, nine tokens) drives the output line for no token at
all: the worker's trace contains not a single `setHigh`, because the
loop of `_transmit_morse_sequence` compares each whole space-separated
chunk against `.` and `-` and silently skips every multi-token chunk.
The claim's per-token pulse walk happens only for chunks that are
exactly one token long. -/
theorem transmit_sos_emits_no_pulse :
    text_to_morse "SOS" = "... --- ..." ∧
    (worker_run MORSE_TIMING (fun _ => false) (text_to_morse "SOS")).1.count TxAct.setHigh = 0 ∧
    (worker_run MORSE_TIMING (fun _ => false) (text_to_morse "SOS")).1
      = [TxAct.sleep MORSE_TIMING.inter_char_gap,
         TxAct.sleep MORSE_TIMING.inter_char_gap, TxAct.callback] ∧
    (worker_run MORSE_TIMING (fun _ => false) (text_to_morse "E")).1
      = [TxAct.setHigh, TxAct.sleep MORSE_TIMING.dot, TxAct.setLow,
         TxAct.sleep MORSE_TIMING.intra_char_gap, TxAct.callback] := by
  refine ⟨by decide, by decide, by decide, by decide⟩

/-- C6 (confirmed): while a transmission is in flight
(`is_transmitting` set), `transmit_text` returns `False` and leaves
the state — including the in-flight morse string — untouched; from
the idle state it returns `True`. -/
theorem transmit_text_busy_reject (st : TransmitterState) (text : String) :
    (st.is_transmitting = true → transmit_text st text = (false, st)) ∧
    (st.is_transmitting = false → (transmit_text st text).1 = true) := by
  constructor
  · intro h
    unfold transmit_text
    rw [if_pos h]
  · intro h
    unfold transmit_text
    rw [if_neg (by rw [h]; exact Bool.false_ne_true)]

/-- Witness for C6: a busy transmitter (in flight on `... --- ...`)
rejects a second send and keeps its state; an idle one accepts. -/
theorem transmit_text_busy_reject_witness :
    transmit_text { is_transmitting := true, inflight := some "... --- ..." } "HELLO"
      = (false, { is_transmitting := true, inflight := some "... --- ..." }) ∧
    (transmit_text { is_transmitting := false, inflight := none } "HELLO").1 = true :=
  ⟨(transmit_text_busy_reject { is_transmitting := true, inflight := some "... --- ..." }
      "HELLO").1 rfl,
   (transmit_text_busy_reject { is_transmitting := false, inflight := none }
      "HELLO").2 rfl⟩

/-- `chunkActs` never emits the completion callback. -/
theorem chunkActs_no_callback (t : TimingProfile) (mc : String) (rest : List String) :
    (chunkActs t mc rest).count TxAct.callback = 0 := by
  rw [List.count_eq_zero]
  unfold chunkActs transmit_dot transmit_dash
  cases rest <;> split_ifs <;> simp_all

/-- The worker loop never emits the completion callback (it is fired
only by the `finally` block). -/
theorem worker_go_no_callback (t : TimingProfile) (stop : ℕ → Bool) :
    ∀ (chunks : List String) (i : ℕ),
      (worker_go t stop chunks i).count TxAct.callback = 0 := by
  intro chunks
  induction chunks with
  | nil => intro i; simp [worker_go]
  | cons mc rest ih =>
    intro i
    unfold worker_go
    split
    · simp
    · rw [List.count_append, chunkActs_no_callback, ih (i + 1)]

/-- C7 (confirmed): however the stop flag behaves — never set (normal
completion) or set at any point (cancellation) — the worker's run
fires the completion callback exactly once, leaves the transmitter
no longer transmitting, and a subsequent `transmit_text` on the
resulting state is accepted. -/
theorem transmission_always_completes (t : TimingProfile) (stop : ℕ → Bool)
    (morse_code : String) (next_text : String) :
    (worker_run t stop morse_code).1.count TxAct.callback = 1 ∧
    (worker_run t stop morse_code).2.is_transmitting = false ∧
    (transmit_text (worker_run t stop morse_code).2 next_text).1 = true := by
  refine ⟨?_, rfl, rfl⟩
  unfold worker_run
  rw [List.count_append, worker_go_no_callback]
  simp

/-- The mutable state of `SignalReceiver` (gpio_control.py lines
165-180) that the claims are about: the pending-character accumulator
and the log of completed characters. -/
structure ReceiverState where
  current_char_signals : List Char
  received_signals : List String
deriving DecidableEq, Repr

/-- Embeds `SignalReceiver._signal_detected` (gpio_control.py lines
204-220): classify the pulse duration and append the resulting token
character to the pending accumulator (the character-boundary timer it
also arms is handled by `receiver_run`). -/
def receiver_detect (t : TimingProfile) (st : ReceiverState) (d : ℚ) : ReceiverState :=
  { st with current_char_signals := st.current_char_signals ++ [signalChar t d] }

/-- Embeds the body of the character-boundary timer
(`SignalReceiver._start_char_timer`, gpio_control.py lines 224-241)
in the case where its revalidation finds no new signal since arming:
if the pending accumulator is non-empty, its joined token string is
appended to `received_signals` (and handed to the character-complete
callbacks) and the accumulator is cleared. -/
def receiver_fire (st : ReceiverState) : ReceiverState :=
  if st.current_char_signals = [] then st
  else
    { current_char_signals := [],
      received_signals := st.received_signals ++ [String.mk st.current_char_signals] }

/-- Embeds a whole monitored episode of `SignalReceiver`.  The input
is the sequence of detected pulses, each paired with the silence from
its falling-edge detection to the next detection (the last pulse's
entry in the list carries the gap to the following pulse of the list
before it; the time after the final pulse is unbounded and handled by
`receiver_run_final`).

Timer analysis justifying this embedding: a pulse detected at time `τ`
sets `last_signal_time := τ` and starts a thread that sleeps
`inter_char_gap` and then, at `τ + inter_char_gap`, re-checks
`now - last_signal_time >= inter_char_gap` and that the accumulator is
non-empty.  If the next detection happens at `τ + g`:
with `g > inter_char_gap` no detection precedes the firing, the check
sees `now - last_signal_time = inter_char_gap` and emits; with
`g < inter_char_gap` the firing sees
`now - last_signal_time = inter_char_gap - g < inter_char_gap` and is
a no-op.  An earlier pulse's still-sleeping timer can only fire while
a newer detection is less than `inter_char_gap` old, so it is likewise
a no-op.  A gap of exactly `inter_char_gap` is a scheduling race in
the Python; the embedding resolves it as no-emit, and the claim
theorem below excludes that measure-zero tie by hypothesis. -/
def receiver_run (t : TimingProfile) : ReceiverState → List (ℚ × ℚ) → ReceiverState
  | st, [] => st
  | st, (d, gap) :: rest =>
    let st1 := receiver_detect t st d
    receiver_run t (if gap > t.inter_char_gap then receiver_fire st1 else st1) rest

/-- `receiver_run` followed by the final boundary-timer firing (after
the last pulse no new detection ever arrives, so the last armed timer
always passes its revalidation). -/
def receiver_run_final (t : TimingProfile) (st : ReceiverState)
    (events : List (ℚ × ℚ)) : ReceiverState :=
  receiver_fire (receiver_run t st events)

/-- Embeds `SignalReceiver.clear_received_signals` (gpio_control.py
lines 251-255): both the log and the pending accumulator are emptied. -/
def clear_received_signals (_st : ReceiverState) : ReceiverState :=
  { current_char_signals := [], received_signals := [] }

/-- The spec-side grouping of a pulse sequence: consecutive pulses
belong to one group, and a gap exceeding `inter_char_gap` after a
pulse ends its group (the final pulse always ends one). -/
def eventGroups (icg : ℚ) : List (ℚ × ℚ) → List (List ℚ)
  | [] => []
  | (d, gap) :: rest =>
    if gap > icg then [d] :: eventGroups icg rest
    else
      match eventGroups icg rest with
      | [] => [[d]]
      | g :: gs => (d :: g) :: gs

/-- Prefix a pending accumulator onto the first group (used to state
the receiver invariant for an arbitrary starting accumulator). -/
def mergePending (p : List Char) : List (List Char) → List (List Char)
  | [] => if p = [] then [] else [p]
  | g :: gs => (p ++ g) :: gs

theorem mergePending_nil : ∀ gs : List (List Char), mergePending [] gs = gs := by
  intro gs
  cases gs with
  | nil => rfl
  | cons g gs => simp [mergePending]

/-- Receiver invariant: running from any accumulator and log, the
final log is the old log extended by exactly one joined character per
event group (with the starting accumulator merged into the first
group). -/
theorem receiver_run_final_general (t : TimingProfile) :
    ∀ (events : List (ℚ × ℚ)) (pending : List Char) (acc : List String),
      (receiver_run_final t ⟨pending, acc⟩ events).received_signals
        = acc ++ (mergePending pending
            ((eventGroups t.inter_char_gap events).map
              (fun g => g.map (signalChar t)))).map String.mk := by
  intro events
  induction events with
  | nil =>
    intro pending acc
    show (receiver_fire ⟨pending, acc⟩).received_signals = _
    cases pending with
    | nil => simp [receiver_fire, eventGroups, mergePending]
    | cons c p => simp [receiver_fire, eventGroups, mergePending]
  | cons e rest ih =>
    intro pending acc
    obtain ⟨d, gap⟩ := e
    show (receiver_run_final t
        (if gap > t.inter_char_gap
         then receiver_fire (receiver_detect t ⟨pending, acc⟩ d)
         else receiver_detect t ⟨pending, acc⟩ d) rest).received_signals = _
    by_cases hgap : gap > t.inter_char_gap
    · rw [if_pos hgap]
      have hfire : receiver_fire (receiver_detect t ⟨pending, acc⟩ d)
          = ⟨[], acc ++ [String.mk (pending ++ [signalChar t d])]⟩ := by
        simp [receiver_detect, receiver_fire]
      rw [hfire, ih [] (acc ++ [String.mk (pending ++ [signalChar t d])])]
      have hgr : eventGroups t.inter_char_gap ((d, gap) :: rest)
          = [d] :: eventGroups t.inter_char_gap rest := by
        simp [eventGroups, hgap]
      rw [hgr, mergePending_nil]
      simp [mergePending, List.append_assoc]
    · rw [if_neg hgap]
      have hdet : receiver_detect t ⟨pending, acc⟩ d
          = ⟨pending ++ [signalChar t d], acc⟩ := rfl
      rw [hdet, ih (pending ++ [signalChar t d]) acc]
      have hgr : eventGroups t.inter_char_gap ((d, gap) :: rest)
          = match eventGroups t.inter_char_gap rest with
            | [] => [[d]]
            | g :: gs => (d :: g) :: gs := by
        simp [eventGroups, hgap]
      rw [hgr]
      cases hrest : eventGroups t.inter_char_gap rest with
      | nil => simp [mergePending]
      | cons g gs => simp [mergePending, List.append_assoc]

/-- C5 (confirmed): for any pulse sequence in which no inter-detection
gap equals `inter_char_gap` exactly (a scheduling race in the source),
the completed-character log after monitoring is exactly one entry per
event group — groups being maximal runs of pulses not followed by a
gap exceeding `inter_char_gap` — and each entry is the classification
of that group's durations in arrival order.  Groups separated by less
than `inter_char_gap` are merged, never completed prematurely. -/
theorem receiver_char_grouping (t : TimingProfile) (events : List (ℚ × ℚ))
    (hno_tie : ∀ e ∈ events, e.2 ≠ t.inter_char_gap) :
    (receiver_run_final t ⟨[], []⟩ events).received_signals
      = (eventGroups t.inter_char_gap events).map
          (fun g => String.mk (g.map (signalChar t))) := by
  rw [receiver_run_final_general t events [] [], mergePending_nil]
  simp [List.map_map]

/-- Witness for C5: a dot then a dash separated by an intra-character
gap, then a lone dot after a word-sized gap. -/
theorem receiver_char_grouping_witness :
    (receiver_run_final MORSE_TIMING ⟨[], []⟩
        [(mkRat 1 5, mkRat 1 5), (mkRat 3 5, mkRat 7 5),
         (mkRat 1 5, mkRat 7 5)]).received_signals
      = (eventGroups MORSE_TIMING.inter_char_gap
          [(mkRat 1 5, mkRat 1 5), (mkRat 3 5, mkRat 7 5),
           (mkRat 1 5, mkRat 7 5)]).map
          (fun g => String.mk (g.map (signalChar MORSE_TIMING))) :=
  receiver_char_grouping MORSE_TIMING
    [(mkRat 1 5, mkRat 1 5), (mkRat 3 5, mkRat 7 5), (mkRat 1 5, mkRat 7 5)]
    (by decide)

/-- C9 counterexample: there is no fixed cap on the length of
`received_signals` — for any proposed cap, feeding one more than that
many isolated pulses makes the log longer than the cap (the source
appends unconditionally and never evicts). -/
theorem received_log_unbounded_cex :
    ¬ ∃ cap : ℕ, ∀ events : List (ℚ × ℚ),
        ((receiver_run_final MORSE_TIMING ⟨[], []⟩ events).received_signals).length
          ≤ cap := by
  rintro ⟨cap, hcap⟩
  have hgroups : ∀ n : ℕ,
      eventGroups MORSE_TIMING.inter_char_gap
        (List.replicate n (mkRat 1 5, mkRat 7 5)) = List.replicate n [mkRat 1 5] := by
    intro n
    induction n with
    | zero => rfl
    | succ n ih =>
      rw [List.replicate_succ, List.replicate_succ]
      simp only [eventGroups]
      rw [if_pos (show mkRat 7 5 > MORSE_TIMING.inter_char_gap by decide), ih]
  have hlen := hcap (List.replicate (cap + 1) (mkRat 1 5, mkRat 7 5))
  rw [receiver_run_final_general MORSE_TIMING _ [] [], mergePending_nil,
    hgroups (cap + 1)] at hlen
  simp at hlen

/-- C9 (amended): `received_signals` is an unbounded ordered log:
monitoring only ever appends completed characters at the end (the old
log is always a prefix, nothing is evicted), and it is emptied only
wholesale by `clear_received_signals`. -/
theorem received_log_append_only (t : TimingProfile) (st : ReceiverState)
    (events : List (ℚ × ℚ)) :
    (∃ tail, (receiver_run t st events).received_signals
        = st.received_signals ++ tail) ∧
    (clear_received_signals st).received_signals = [] := by
  constructor
  · induction events generalizing st with
    | nil => exact ⟨[], by simp [receiver_run]⟩
    | cons e rest ih =>
      obtain ⟨d, gap⟩ := e
      show ∃ tail,
        (receiver_run t
          (if gap > t.inter_char_gap
           then receiver_fire (receiver_detect t st d)
           else receiver_detect t st d) rest).received_signals
        = st.received_signals ++ tail
      by_cases hgap : gap > t.inter_char_gap
      · rw [if_pos hgap]
        obtain ⟨tail2, h2⟩ := ih (receiver_fire (receiver_detect t st d))
        have hmid : (receiver_fire (receiver_detect t st d)).received_signals
            = st.received_signals
              ++ [String.mk (st.current_char_signals ++ [signalChar t d])] := by
          simp [receiver_detect, receiver_fire]
        exact ⟨[String.mk (st.current_char_signals ++ [signalChar t d])] ++ tail2,
          by rw [h2, hmid, List.append_assoc]⟩
      · rw [if_neg hgap]
        obtain ⟨tail2, h2⟩ := ih (receiver_detect t st d)
        exact ⟨tail2, by rw [h2]; rfl⟩
  · rfl
